import Mathlib

/-!
# Proof-of-stake block lottery (`proof-stack/main.go`)

A shallow embedding of the proof-of-stake server: blocks and their hash, block
generation and validation, the validator registry, the handling of one input line
of a session, the candidate intake and the round resolution `pickWinner`.

Conventions of the embedding.

* Go `int` is the 64-bit two's-complement integer: values are `Int`, and the one
  addition of the program (`oldBlock.Index + 1`) wraps through `wrapInt`.
* Go strings that the program builds are valid UTF-8 text (timestamps, hexadecimal
  digests, one-rune conversions), so they are Lean `String`s; their bytes are the
  UTF-8 encoding.
* `time.Now().String()` and the random source are inputs of the functions that
  read them (`now`, `r`).
* The global variables `Blockchain`, `tempBlocks`, `validators` and the messages
  sent on `announcements` form the `State`; every function that touches them takes
  and returns the state.  A function body runs as one atomic step; the send of a
  candidate by a session (`LineResult.sent`) and its reception by the intake are two
  functions, so a round resolution can be placed between them.
* A run-time panic is a result of its own (`Outcome.panicked`), with the globals as
  they are when the panic is raised.
-/

namespace PoS

/-! ## SHA-256 (`crypto/sha256`) and hexadecimal encoding (`encoding/hex`) -/

def sha256K : List Nat :=
  [0x428a2f98, 0x71374491, 0xb5c0fbcf, 0xe9b5dba5, 0x3956c25b, 0x59f111f1, 0x923f82a4, 0xab1c5ed5,
   0xd807aa98, 0x12835b01, 0x243185be, 0x550c7dc3, 0x72be5d74, 0x80deb1fe, 0x9bdc06a7, 0xc19bf174,
   0xe49b69c1, 0xefbe4786, 0x0fc19dc6, 0x240ca1cc, 0x2de92c6f, 0x4a7484aa, 0x5cb0a9dc, 0x76f988da,
   0x983e5152, 0xa831c66d, 0xb00327c8, 0xbf597fc7, 0xc6e00bf3, 0xd5a79147, 0x06ca6351, 0x14292967,
   0x27b70a85, 0x2e1b2138, 0x4d2c6dfc, 0x53380d13, 0x650a7354, 0x766a0abb, 0x81c2c92e, 0x92722c85,
   0xa2bfe8a1, 0xa81a664b, 0xc24b8b70, 0xc76c51a3, 0xd192e819, 0xd6990624, 0xf40e3585, 0x106aa070,
   0x19a4c116, 0x1e376c08, 0x2748774c, 0x34b0bcb5, 0x391c0cb3, 0x4ed8aa4a, 0x5b9cca4f, 0x682e6ff3,
   0x748f82ee, 0x78a5636f, 0x84c87814, 0x8cc70208, 0x90befffa, 0xa4506ceb, 0xbef9a3f7, 0xc67178f2]

def sha256Init : List Nat :=
  [0x6a09e667, 0xbb67ae85, 0x3c6ef372, 0xa54ff53a, 0x510e527f, 0x9b05688c, 0x1f83d9ab, 0x5be0cd19]

/-- Truncation to a 32-bit word. -/
def w32 (x : Nat) : Nat := x % 4294967296

/-- Rotation to the right of a 32-bit word. -/
def rotr32 (x n : Nat) : Nat := w32 ((x >>> n) ||| (x <<< (32 - n)))

def bigSigma0 (x : Nat) : Nat := rotr32 x 2 ^^^ rotr32 x 13 ^^^ rotr32 x 22

def bigSigma1 (x : Nat) : Nat := rotr32 x 6 ^^^ rotr32 x 11 ^^^ rotr32 x 25

def smallSigma0 (x : Nat) : Nat := rotr32 x 7 ^^^ rotr32 x 18 ^^^ (x >>> 3)

def smallSigma1 (x : Nat) : Nat := rotr32 x 17 ^^^ rotr32 x 19 ^^^ (x >>> 10)

def ch (x y z : Nat) : Nat := (x &&& y) ^^^ ((4294967295 ^^^ x) &&& z)

def maj (x y z : Nat) : Nat := (x &&& y) ^^^ (x &&& z) ^^^ (y &&& z)

/-- Padding of the message: the byte 0x80, zero bytes up to 56 modulo 64, then the
length in bits on eight bytes, most significant first. -/
def sha256Pad (msg : List Nat) : List Nat :=
  let bits := 8 * msg.length
  msg ++ [128] ++ List.replicate ((119 - msg.length % 64) % 64) 0
    ++ (List.range 8).map (fun i => (bits >>> (8 * (7 - i))) % 256)

/-- Big-endian 32-bit words of the first `n` groups of four bytes of `bs`. -/
def beWords : Nat → List Nat → List Nat
  | 0, _ => []
  | n + 1, bs =>
    (bs.getD 0 0 * 16777216 + bs.getD 1 0 * 65536 + bs.getD 2 0 * 256 + bs.getD 3 0)
      :: beWords n (bs.drop 4)

/-- Message schedule, newest word first: `w` is W[t-1], W[t-2], ...; `n` words are added. -/
def sha256Schedule : Nat → List Nat → List Nat
  | 0, w => w
  | n + 1, w =>
    sha256Schedule n
      (w32 (smallSigma1 (w.getD 1 0) + w.getD 6 0 + smallSigma0 (w.getD 14 0) + w.getD 15 0) :: w)

/-- The eight working variables of the compression function. -/
structure ShaState where
  a : Nat
  b : Nat
  c : Nat
  d : Nat
  e : Nat
  f : Nat
  g : Nat
  h : Nat

def sha256Round (s : ShaState) (kw : Nat × Nat) : ShaState :=
  let t1 := s.h + bigSigma1 s.e + ch s.e s.f s.g + kw.1 + kw.2
  let t2 := bigSigma0 s.a + maj s.a s.b s.c
  { a := w32 (t1 + t2), b := s.a, c := s.b, d := s.c,
    e := w32 (s.d + t1), f := s.e, g := s.f, h := s.g }

/-- Compression of one 64-byte block into the chaining value `hs`. -/
def sha256Block (hs : List Nat) (block : List Nat) : List Nat :=
  let w := (sha256Schedule 48 (beWords 16 block).reverse).reverse
  let s0 : ShaState :=
    { a := hs.getD 0 0, b := hs.getD 1 0, c := hs.getD 2 0, d := hs.getD 3 0,
      e := hs.getD 4 0, f := hs.getD 5 0, g := hs.getD 6 0, h := hs.getD 7 0 }
  let s := (sha256K.zip w).foldl sha256Round s0
  List.zipWith (fun x y => w32 (x + y)) hs [s.a, s.b, s.c, s.d, s.e, s.f, s.g, s.h]

def sha256Blocks : Nat → List Nat → List Nat → List Nat
  | 0, hs, _ => hs
  | n + 1, hs, bs => sha256Blocks n (sha256Block hs (bs.take 64)) (bs.drop 64)

/-- The 32 bytes of the SHA-256 digest of a byte sequence (`h.Write` then `h.Sum(nil)`). -/
def sha256 (msg : List Nat) : List Nat :=
  let p := sha256Pad msg
  (sha256Blocks (p.length / 64) sha256Init p).flatMap
    (fun x => [x >>> 24, (x >>> 16) % 256, (x >>> 8) % 256, x % 256])

def hexDigit (n : Nat) : Char := "0123456789abcdef".data.getD n '0'

/-- Lower-case hexadecimal text of a byte sequence (`hex.EncodeToString`). -/
def hexEncodeToString (bs : List Nat) : String :=
  String.mk (bs.flatMap (fun b => [hexDigit (b / 16), hexDigit (b % 16)]))

/-- The bytes of a string (`[]byte(s)`): its UTF-8 encoding. -/
def stringBytes (s : String) : List Nat :=
  (s.data.flatMap String.utf8EncodeChar).map UInt8.toNat

/-! ## Go integers and the conversion `string(int)` -/

def maxInt : Int := 9223372036854775807

def minInt : Int := -9223372036854775808

/-- Reduction of an integer to the 64-bit two's-complement range of Go `int`. -/
def wrapInt (x : Int) : Int := (x + 9223372036854775808) % 18446744073709551616 - 9223372036854775808

/-- The rune U+FFFD that stands for an invalid code point (`utf8.RuneError`). -/
def runeError : Char := Char.ofNat 65533

/-- Go conversion `string(v)` of an integer: the UTF-8 text of the code point `v`, and
of U+FFFD when `v` is not a Unicode scalar value (negative, a surrogate, above U+10FFFF). -/
def intToString (v : Int) : String :=
  if 0 ≤ v ∧ v.toNat.isValidChar then String.singleton (Char.ofNat v.toNat)
  else String.singleton runeError

/-! ## Blocks -/

/-- A block of the chain (`type Block struct`). -/
structure Block where
  Index : Int
  Timestamp : String
  BPM : Int
  Hash : String
  PrevHash : String
  Validator : String
deriving DecidableEq, Repr

/-- Hexadecimal SHA-256 digest of a string (`calculateHash`). -/
def calculateHash (s : String) : String :=
  let hashed := sha256 (stringBytes s)
  hexEncodeToString hashed

/-- The string `record` that `calculateBlockHash` hashes. -/
def blockRecord (block : Block) : String :=
  intToString block.Index ++ block.Timestamp ++ intToString block.BPM ++ block.PrevHash

/-- Hash of a block (`calculateBlockHash`). -/
def calculateBlockHash (block : Block) : String :=
  let record := blockRecord block
  calculateHash record

/-- The zero value of `Block` (`Block{}`, `var newBlock Block`). -/
def Block.zero : Block :=
  { Index := 0, Timestamp := "", BPM := 0, Hash := "", PrevHash := "", Validator := "" }

/-- Creation of the block that follows `oldBlock` (`generateBlock`); `now` is
`time.Now().String()`.  The error of the Go result is always nil. -/
def generateBlock (oldBlock : Block) (BPM : Int) (address : String) (now : String) :
    Except String Block :=
  let newBlock := Block.zero
  let newBlock := { newBlock with Index := wrapInt (oldBlock.Index + 1) }
  let newBlock := { newBlock with Timestamp := now }
  let newBlock := { newBlock with BPM := BPM }
  let newBlock := { newBlock with PrevHash := oldBlock.Hash }
  let newBlock := { newBlock with Hash := calculateBlockHash newBlock }
  let newBlock := { newBlock with Validator := address }
  Except.ok newBlock

/-- Validity of `newBlock` as successor of `oldBlock` (`isBlockValid`). -/
def isBlockValid (newBlock oldBlock : Block) : Bool :=
  if wrapInt (oldBlock.Index + 1) ≠ newBlock.Index then false
  else if oldBlock.Hash ≠ newBlock.PrevHash then false
  else if calculateBlockHash newBlock ≠ newBlock.Hash then false
  else true

/-! ## The validator registry (`validators`, a `map[string]int`) -/

/-- A map from validator address to token balance, as a list of entries; the entry
that counts for a key is the first one. -/
abbrev Registry := List (String × Int)

/-- Lookup `validators[key]` with its presence flag (`k, ok := m[key]`). -/
def Registry.get : Registry → String → Option Int
  | [], _ => none
  | (k, v) :: m, key => if k = key then some v else Registry.get m key

/-- Removal `delete(m, key)`. -/
def Registry.delete (m : Registry) (key : String) : Registry :=
  m.filter (fun e => decide (e.1 ≠ key))

/-- Assignment `m[key] = v`. -/
def Registry.set (m : Registry) (key : String) (v : Int) : Registry :=
  (key, v) :: Registry.delete m key

/-- Number of keys of the map (the number of iterations of `range m`). -/
def Registry.size (m : Registry) : Nat := (m.map Prod.fst).dedup.length

/-! ## Global state -/

/-- The global variables of the server: the chain, the candidate blocks of the
current round, the registry, and the messages sent on `announcements` so far. -/
structure State where
  Blockchain : List Block
  tempBlocks : List Block
  validators : Registry
  announcements : List String
deriving DecidableEq, Repr

/-- Result of a function that can panic: it returned, or it panicked; in both cases
with the globals as they are at that point. -/
inductive Outcome where
  | returned (st : State)
  | panicked (st : State)
deriving DecidableEq, Repr

/-- The globals at the end of the call. -/
def Outcome.state : Outcome → State
  | Outcome.returned st => st
  | Outcome.panicked st => st

/-! ## `strconv.Atoi` and `rand.Intn` -/

/-- Outcome of a number parser of `strconv`: a value, a syntax error, or a range
error. -/
inductive ParseResult where
  | value (n : Nat)
  | malformed
  | outOfRange
deriving DecidableEq, Repr

/-- The loop of `strconv.ParseUint(s, 10, 64)` over the bytes of `s`, with `n` the
value so far: a byte that is not a decimal digit is a syntax error, and a value that
leaves 64 bits is a range error, whichever comes first from the left. -/
def parseUintLoop : List Char → Nat → ParseResult
  | [], n => ParseResult.value n
  | c :: cs, n =>
    if c.isDigit = false then ParseResult.malformed
    else if 1844674407370955162 ≤ n then ParseResult.outOfRange
    else if 18446744073709551615 < n * 10 + (c.toNat - 48) then ParseResult.outOfRange
    else parseUintLoop cs (n * 10 + (c.toNat - 48))

/-- The result of `strconv.ParseUint(s, 10, 64)`: the empty string is a syntax error. -/
def ParseUint (cs : List Char) : ParseResult :=
  if cs = [] then ParseResult.malformed else parseUintLoop cs 0

/-- The result of `strconv.ParseInt(s, 10, 0)`: the value and whether the error is
non-nil.  A syntax error has the value 0; a range error has the nearest bound of
`int` as value. -/
def ParseInt (cs : List Char) : Int × Bool :=
  if cs = [] then (0, true)
  else
    let neg : Bool := decide (cs.head? = some '-')
    let ds := if cs.head? = some '+' then cs.tail else if cs.head? = some '-' then cs.tail else cs
    match ParseUint ds with
    | ParseResult.malformed => (0, true)
    | ParseResult.outOfRange => if neg then (minInt, true) else (maxInt, true)
    | ParseResult.value un =>
      if neg = false ∧ 9223372036854775808 ≤ un then (maxInt, true)
      else if neg = true ∧ 9223372036854775808 < un then (minInt, true)
      else if neg then (-(Int.ofNat un), false) else (Int.ofNat un, false)

/-- The result of `strconv.Atoi(s)`: the value and whether the error is non-nil.  A
string of 1 to 18 bytes takes the fast path (an optional sign, then digits only, else
a syntax error with value 0); any other string goes through `ParseInt`. -/
def Atoi (s : String) : Int × Bool :=
  let sLen := s.utf8ByteSize
  if 0 < sLen ∧ sLen < 19 then
    let cs := s.data
    let ds := if cs.head? = some '-' ∨ cs.head? = some '+' then cs.tail else cs
    if ds = [] then (0, true)
    else if ds.all Char.isDigit = false then (0, true)
    else
      let n : Int := Int.ofNat (ds.foldl (fun acc ch => acc * 10 + (ch.toNat - 48)) 0)
      if cs.head? = some '-' then (-n, false) else (n, false)
  else ParseInt s.data

/-- The result of `Intn(n)` on a random source whose accepted raw value is `r`: a
panic (`none`) when `n ≤ 0`, else `r` reduced to the interval `[0, n)`. -/
def Intn (r : Nat) (n : Nat) : Option Nat :=
  if n = 0 then none else some (r % n)

/-! ## Round resolution (`pickWinner`) -/

/-- One iteration of the loop `OUTER` of `pickWinner` on the candidate `block`: a
validator that is already in the pool is skipped; otherwise `k` copies of it are
appended when the registry holds it with `k` tokens. -/
def lotteryStep (validators : Registry) (lotteryPool : List String) (block : Block) :
    List String :=
  if lotteryPool.any (fun node => decide (block.Validator = node)) then lotteryPool
  else
    let setValidators := validators
    match setValidators.get block.Validator with
    | some k => lotteryPool ++ List.replicate k.toNat block.Validator
    | none => lotteryPool

/-- The lottery pool after the loop `OUTER` over the blocks `temp`. -/
def buildLotteryPool (validators : Registry) (temp : List Block) : List String :=
  temp.foldl (lotteryStep validators) []

/-- The last loop of `pickWinner`: the first block of `temp` whose validator is the
winner is appended to the chain, one announcement is sent per registry entry, and
the loop stops. -/
def appendWinner (st : State) (temp : List Block) (lotteryWinner : String) : State :=
  match temp.find? (fun block => decide (block.Validator = lotteryWinner)) with
  | some block =>
    { st with
      Blockchain := st.Blockchain ++ [block]
      announcements := st.announcements ++
        List.replicate st.validators.size ("\nwinning validator: " ++ lotteryWinner ++ "\n") }
  | none => st

/-- Round resolution `pickWinner` (after its sleep), with `r` the raw value of the
random source.  `Intn` panics on an empty lottery pool, and so does an index outside
the pool. -/
def pickWinner (st : State) (r : Nat) : Outcome :=
  let temp := st.tempBlocks
  if 0 < temp.length then
    let lotteryPool := buildLotteryPool st.validators temp
    match Intn r lotteryPool.length with
    | none => Outcome.panicked st
    | some i =>
      match lotteryPool[i]? with
      | none => Outcome.panicked st
      | some lotteryWinner =>
        let st1 := appendWinner st temp lotteryWinner
        Outcome.returned { st1 with tempBlocks := [] }
  else Outcome.returned { st with tempBlocks := [] }

/-! ## Sessions (`handleConn`) and start-up (`main`) -/

/-- Handling of the balance line of a session: a line that is not a number ends the
session; otherwise the validator gets the address `calculateHash(now)` and the
balance is stored under it.  The result is the state and the address, if any. -/
def handleBalanceLine (st : State) (line now : String) : State × Option String :=
  let (balance, err) := Atoi line
  if err then (st, none)
  else
    let address := calculateHash now
    ({ st with validators := st.validators.set address balance }, some address)

/-- What the body of the loop `for scanBPM.Scan()` does with one line. -/
structure LineResult where
  /-- The registry after the line. -/
  validators : Registry
  /-- Whether `conn.Close()` was called. -/
  connClosed : Bool
  /-- The block returned by `generateBlock`, when it was called. -/
  generated : Option Block
  /-- The block sent on `candidateBlocks`, if any. -/
  sent : Option Block
  /-- Whether `Blockchain[len(Blockchain)-1]` panicked (empty chain). -/
  panicked : Bool
deriving DecidableEq, Repr

/-- The body of the loop `for scanBPM.Scan()` of `handleConn` for the validator
`address` on the input `line`.  After a line that is not a number the validator is
deleted and the connection closed, and the body goes on with `bpm` as `Atoi`
returned it. -/
def handleBPMLine (st : State) (address line now : String) : LineResult :=
  let (bpm, err) := Atoi line
  let validators := if err then st.validators.delete address else st.validators
  let connClosed := err
  match st.Blockchain.getLast? with
  | none =>
    { validators := validators, connClosed := connClosed, generated := none, sent := none,
      panicked := true }
  | some oldLastIndex =>
    match generateBlock oldLastIndex bpm address now with
    | Except.error _ =>
      { validators := validators, connClosed := connClosed, generated := none, sent := none,
        panicked := false }
    | Except.ok newBlock =>
      if isBlockValid newBlock oldLastIndex then
        { validators := validators, connClosed := connClosed, generated := some newBlock,
          sent := some newBlock, panicked := false }
      else
        { validators := validators, connClosed := connClosed, generated := some newBlock,
          sent := none, panicked := false }

/-- The candidate intake of `main`: a block received on `candidateBlocks` is appended
to `tempBlocks`. -/
def intake (tempBlocks : List Block) (candidate : Block) : List Block :=
  tempBlocks ++ [candidate]

/-- The state after one BPM line of a session, the block it sent having gone through
the intake. -/
def afterBPMLine (st : State) (address line now : String) : State :=
  let res := handleBPMLine st address line now
  { st with
    validators := res.validators
    tempBlocks := match res.sent with
      | some candidate => intake st.tempBlocks candidate
      | none => st.tempBlocks }

/-- The genesis block of `main`; `now` is `time.Now().String()`. -/
def genesisBlock (now : String) : Block :=
  { Index := 0, Timestamp := now, BPM := 0, Hash := calculateBlockHash Block.zero,
    PrevHash := "", Validator := "" }

/-- The globals once `main` has appended the genesis block. -/
def initState (now : String) : State :=
  { Blockchain := [] ++ [genesisBlock now], tempBlocks := [], validators := [],
    announcements := [] }

/-- One atomic step of the server.  `register`, `deregister` and `propose` are the
registry and intake operations on their own; `balanceLine` and `bpmLine` are the two
line handlers of a session; `round` is a round resolution with the draw `r`, to its
return or to its panic. -/
inductive Step : State → State → Prop where
  | register (st : State) (address : String) (balance : Int) :
      Step st { st with validators := st.validators.set address balance }
  | deregister (st : State) (address : String) :
      Step st { st with validators := st.validators.delete address }
  | propose (st : State) (oldLastIndex newBlock : Block) (bpm : Int) (address now : String) :
      st.Blockchain.getLast? = some oldLastIndex →
      generateBlock oldLastIndex bpm address now = Except.ok newBlock →
      isBlockValid newBlock oldLastIndex = true →
      Step st { st with tempBlocks := intake st.tempBlocks newBlock }
  | balanceLine (st : State) (line now : String) :
      Step st (handleBalanceLine st line now).1
  | bpmLine (st : State) (address line now : String) :
      (handleBPMLine st address line now).panicked = false →
      Step st (afterBPMLine st address line now)
  | round (st : State) (r : Nat) :
      Step st (pickWinner st r).state

/-- The states the server can reach from its start at time `t0`. -/
inductive Reachable (t0 : String) : State → Prop where
  | init : Reachable t0 (initState t0)
  | step (st st1 : State) : Reachable t0 st → Step st st1 → Reachable t0 st1

/-! ## Auxiliary definitions and example inputs -/

/-- The block that `generateBlock` returns, field by field. -/
def generatedBlock (oldBlock : Block) (BPM : Int) (address now : String) : Block :=
  { Index := wrapInt (oldBlock.Index + 1), Timestamp := now, BPM := BPM,
    Hash := calculateBlockHash
      { Index := wrapInt (oldBlock.Index + 1), Timestamp := now, BPM := BPM, Hash := "",
        PrevHash := oldBlock.Hash, Validator := "" },
    PrevHash := oldBlock.Hash, Validator := address }

/-- A state with the genesis block and one validator `A` holding 10 tokens. -/
def stOneValidator : State :=
  { initState "t0" with validators := [("A", 10)] }

/-- A state with the genesis block and two validators, `A` with 10 tokens and `B`
with 5. -/
def stTwoValidators : State :=
  { initState "t0" with validators := [("A", 10), ("B", 5)] }

/-- The block generated on the genesis block with BPM -1, its BPM changed to -2. -/
def tamperedBlock : Block :=
  { generatedBlock (genesisBlock "t0") (-1) "A" "t1" with BPM := -2 }

/-- The number of tickets of validator `v` once the candidates of the validators
`seen` have been processed: its stake when it is one of them and holds a positive
stake, zero otherwise. -/
def tickets (validators : Registry) (seen : List String) (v : String) : Nat :=
  if v ∈ seen then
    match validators.get v with
    | some k => k.toNat
    | none => 0
  else 0

/-- A candidate block of validator `A`. -/
def candA : Block := { Block.zero with Index := 1, BPM := 60, Validator := "A" }

/-- A candidate block of validator `B`. -/
def candB : Block := { Block.zero with Index := 1, BPM := 70, Validator := "B" }

/-- A state whose only candidate comes from a validator registered with 0 tokens. -/
def stZeroStake : State :=
  { Blockchain := [genesisBlock "t0"],
    tempBlocks := [generatedBlock (genesisBlock "t0") 72 "A" "t1"],
    validators := [("A", 0)], announcements := [] }

/-- A state with two candidates of `A` and one of `B` built on the genesis block;
`A` holds 3 tokens and `B` holds 1. -/
def stRound : State :=
  { Blockchain := [genesisBlock "t0"],
    tempBlocks := [generatedBlock (genesisBlock "t0") 60 "A" "t1",
      generatedBlock (genesisBlock "t0") 70 "B" "t2",
      generatedBlock (genesisBlock "t0") 80 "A" "t3"],
    validators := [("A", 3), ("B", 1)], announcements := [] }

/-- A state with a candidate of `A` and a candidate of `B`, after `A` has been
deleted from the registry; `B` holds 5 tokens. -/
def stDeregistered : State :=
  { Blockchain := [genesisBlock "t0"],
    tempBlocks := [generatedBlock (genesisBlock "t0") 60 "A" "t1",
      generatedBlock (genesisBlock "t0") 70 "B" "t2"],
    validators := [("B", 5)], announcements := [] }

/-- Every block of the chain passes `isBlockValid` against the block before it. -/
def Linked : List Block → Prop
  | [] => True
  | [_] => True
  | a :: b :: rest => isBlockValid b a = true ∧ Linked (b :: rest)

/-- The invariant of the server started at time `t0`: the chain starts with the
genesis block, its blocks are linked, and every candidate of the pool passes
`isBlockValid` against the last block of the chain. -/
def Inv (t0 : String) (st : State) : Prop :=
  (∃ rest, st.Blockchain = genesisBlock t0 :: rest) ∧
  Linked st.Blockchain ∧
  ∀ tail, st.Blockchain.getLast? = some tail →
    ∀ b ∈ st.tempBlocks, isBlockValid b tail = true

/-- The state reached from the start when `A` registers 10 tokens and proposes the
BPM 72. -/
def stProposed : State :=
  afterBPMLine { initState "t0" with validators := (initState "t0").validators.set "A" 10 }
    "A" "72" "t1"

/-- The state after the round that follows `stProposed`: the candidate of `A` is on
the chain and one announcement has been sent. -/
def stResolved : State :=
  { Blockchain := [genesisBlock "t0", generatedBlock (genesisBlock "t0") 72 "A" "t1"],
    tempBlocks := [], validators := [("A", 10)],
    announcements := ["\nwinning validator: A\n"] }

/-- Start of the interleaving: the chain is the genesis block, `A` and `B` hold one
token each. -/
def raceStart : State :=
  { initState "t0" with validators := [("A", 1), ("B", 1)] }

/-- The session of `A` has handled the line `60` and the intake has received its
candidate. -/
def raceAfterA : State :=
  afterBPMLine raceStart "A" "60" "t1"

/-- What the session of `B` does with the line `70` in the state `raceAfterA`: it
reads the last block of the chain, builds its candidate on it, checks it, and sends
it on `candidateBlocks`, where it waits for the intake. -/
def raceLineB : LineResult :=
  handleBPMLine raceAfterA "B" "70" "t2"

/-- A round resolution runs while the candidate of `B` waits on the channel. -/
def raceAfterRound : State :=
  (pickWinner { raceAfterA with validators := raceLineB.validators } 0).state

/-- The intake receives the candidate of `B` after that round. -/
def raceAfterIntake : State :=
  { raceAfterRound with
    tempBlocks := match raceLineB.sent with
      | some candidate => intake raceAfterRound.tempBlocks candidate
      | none => raceAfterRound.tempBlocks }

/-! # Theorems -/

/-! ## Known answers of the hash -/

/-- Known answer of SHA-256: the digest of the three bytes of `abc`. -/
theorem calculateHash_abc :
    calculateHash "abc" = "ba7816bf8f01cfea414140de5dae2223b00361a396177a9cb410ff61f20015ad" := by
  decide

/-- The hash of the zero block, the Hash field of every genesis block: the digest of
the two zero bytes of `string(0) + "" + string(0) + ""`. -/
theorem calculateBlockHash_zero :
    calculateBlockHash Block.zero =
      "96a296d224f285c67bee93c30f8a309157f0daa35dc5b87e410b78630a09cfc7" := by
  decide

/-! ## Blocks: generation and validation -/

theorem isBlockValid_iff (newBlock oldBlock : Block) :
    isBlockValid newBlock oldBlock = true ↔
      newBlock.Index = wrapInt (oldBlock.Index + 1) ∧ newBlock.PrevHash = oldBlock.Hash ∧
        newBlock.Hash = calculateBlockHash newBlock := by
  unfold isBlockValid
  constructor
  · intro h
    split_ifs at h with h1 h2 h3
    exact ⟨(not_not.mp h1).symm, (not_not.mp h2).symm, (not_not.mp h3).symm⟩
  · rintro ⟨h1, h2, h3⟩
    simp [h1, h2, ← h3]

theorem calculateBlockHash_congr (b c : Block) (h : blockRecord b = blockRecord c) :
    calculateBlockHash b = calculateBlockHash c := by
  simp [calculateBlockHash, h]

theorem generateBlock_eq (oldBlock : Block) (BPM : Int) (address now : String) :
    generateBlock oldBlock BPM address now = Except.ok (generatedBlock oldBlock BPM address now) := rfl

theorem generatedBlock_valid (oldBlock : Block) (BPM : Int) (address now : String) :
    isBlockValid (generatedBlock oldBlock BPM address now) oldBlock = true := by
  rw [isBlockValid_iff]
  refine ⟨rfl, rfl, ?_⟩
  exact calculateBlockHash_congr _ _ rfl

theorem wrapInt_of_range (x : Int) (h1 : minInt ≤ x) (h2 : x ≤ maxInt) : wrapInt x = x := by
  unfold wrapInt
  unfold minInt at h1
  unfold maxInt at h2
  rw [Int.emod_eq_of_lt (by omega) (by omega)]
  omega

theorem handleBPMLine_sent (st : State) (address line now : String) (oldBlock : Block)
    (h : st.Blockchain.getLast? = some oldBlock) :
    handleBPMLine st address line now =
      { validators := if (Atoi line).2 then st.validators.delete address else st.validators,
        connClosed := (Atoi line).2,
        generated := some (generatedBlock oldBlock (Atoi line).1 address now),
        sent := some (generatedBlock oldBlock (Atoi line).1 address now),
        panicked := false } := by
  simp [handleBPMLine, h, generateBlock_eq, generatedBlock_valid]

/-- C7: for every previous block, BPM, address and timestamp, `generateBlock` returns a
block that passes `isBlockValid` against the previous block: its Index is the previous
Index plus one (in Go's 64-bit arithmetic, hence the exact successor below the largest
`int`), its PrevHash is the previous Hash and its Hash is `calculateBlockHash` of the
block; and the line handler of a session, which builds its candidate on the last block
of the chain, sends that candidate to the intake. -/
theorem generateBlock_isBlockValid (oldBlock : Block) (BPM : Int) (address now : String) :
    ∃ newBlock, generateBlock oldBlock BPM address now = Except.ok newBlock ∧
      isBlockValid newBlock oldBlock = true ∧
      newBlock.Index = wrapInt (oldBlock.Index + 1) ∧
      (minInt ≤ oldBlock.Index ∧ oldBlock.Index < maxInt → newBlock.Index = oldBlock.Index + 1) ∧
      newBlock.PrevHash = oldBlock.Hash ∧
      newBlock.Hash = calculateBlockHash newBlock ∧
      newBlock.BPM = BPM ∧ newBlock.Validator = address ∧ newBlock.Timestamp = now ∧
      ∀ (st : State) (line : String), st.Blockchain.getLast? = some oldBlock →
        (Atoi line).1 = BPM →
        (handleBPMLine st address line now).sent = some newBlock ∧
        (afterBPMLine st address line now).tempBlocks = st.tempBlocks ++ [newBlock] := by
  refine ⟨generatedBlock oldBlock BPM address now, generateBlock_eq _ _ _ _, generatedBlock_valid _ _ _ _,
    rfl, ?_, rfl, ?_, rfl, rfl, rfl, ?_⟩
  · rintro ⟨h1, h2⟩
    have h3 : oldBlock.Index + 1 ≤ maxInt := by unfold maxInt at h2 ⊢; omega
    have h4 : minInt ≤ oldBlock.Index + 1 := by unfold minInt at h1 ⊢; omega
    exact wrapInt_of_range _ h4 h3
  · exact ((isBlockValid_iff _ _).mp (generatedBlock_valid oldBlock BPM address now)).2.2
  · intro st line hlast hbpm
    subst hbpm
    simp [afterBPMLine, handleBPMLine_sent st address line now oldBlock hlast, intake]

/-! ## The registry -/

theorem Registry.get_cons (k : String) (v : Int) (m : Registry) (key : String) :
    Registry.get ((k, v) :: m) key = if k = key then some v else Registry.get m key := rfl

theorem Registry.delete_cons (k : String) (v : Int) (m : Registry) (key : String) :
    Registry.delete ((k, v) :: m) key =
      if k = key then Registry.delete m key else (k, v) :: Registry.delete m key := by
  by_cases hk : k = key <;> simp [Registry.delete, hk]

theorem Registry.get_delete_self (m : Registry) (key : String) :
    (Registry.delete m key).get key = none := by
  induction m with
  | nil => rfl
  | cons e m ih =>
    obtain ⟨k, v⟩ := e
    rw [Registry.delete_cons]
    by_cases hk : k = key
    · rw [if_pos hk]; exact ih
    · rw [if_neg hk, Registry.get_cons, if_neg hk]; exact ih

theorem Registry.get_delete_other (m : Registry) (key other : String) (h : other ≠ key) :
    (Registry.delete m key).get other = m.get other := by
  induction m with
  | nil => rfl
  | cons e m ih =>
    obtain ⟨k, v⟩ := e
    rw [Registry.delete_cons, Registry.get_cons]
    by_cases hk : k = key
    · have hko : ¬ k = other := fun hc => h (hc.symm.trans hk)
      rw [if_pos hk, if_neg hko]; exact ih
    · rw [if_neg hk, Registry.get_cons]
      by_cases hko : k = other
      · rw [if_pos hko, if_pos hko]
      · rw [if_neg hko, if_neg hko]; exact ih

theorem Registry.delete_entries (m : Registry) (key : String) (e : String × Int) :
    e ∈ Registry.delete m key ↔ e ∈ m ∧ e.1 ≠ key := by
  simp [Registry.delete]

/-- C9: when the line is not an integer (`Atoi` returns an error), the registry after
the session of validator `address` has handled the line no longer contains `address`,
and the entry and the stake of every other validator are as before. -/
theorem malformed_line_deregisters (st : State) (address line now : String)
    (herr : (Atoi line).2 = true) :
    (handleBPMLine st address line now).validators = st.validators.delete address ∧
    (afterBPMLine st address line now).validators.get address = none ∧
    (∀ other, other ≠ address →
      (afterBPMLine st address line now).validators.get other = st.validators.get other) ∧
    (∀ e : String × Int, e.1 ≠ address →
      (e ∈ (afterBPMLine st address line now).validators ↔ e ∈ st.validators)) := by
  have hv : (handleBPMLine st address line now).validators = st.validators.delete address := by
    unfold handleBPMLine
    cases hl : st.Blockchain.getLast? with
    | none => simp [herr]
    | some oldBlock => simp [herr, generateBlock_eq, generatedBlock_valid]
  have hv2 : (afterBPMLine st address line now).validators = st.validators.delete address := by
    simp [afterBPMLine, hv]
  refine ⟨hv, ?_, ?_, ?_⟩
  · rw [hv2]; exact Registry.get_delete_self _ _
  · intro other ho
    rw [hv2]; exact Registry.get_delete_other _ _ _ ho
  · intro e he
    rw [hv2, Registry.delete_entries]
    exact ⟨fun h => h.1, fun h => ⟨h, he⟩⟩

theorem malformed_line_deregisters_witness :
    (Atoi "abc").2 = true ∧
    (handleBPMLine stTwoValidators "A" "abc" "t1").validators = [("B", 5)] ∧
    (afterBPMLine stTwoValidators "A" "abc" "t1").validators.get "A" = none ∧
    (afterBPMLine stTwoValidators "A" "abc" "t1").validators.get "B" = some 5 :=
  have h := malformed_line_deregisters stTwoValidators "A" "abc" "t1" (by decide)
  ⟨by decide, h.1.trans (by decide), h.2.1, (h.2.2.1 "B" (by decide)).trans (by decide)⟩

/-- C8 (the code at the failing input): validator `A` holds 10 tokens and sends the
line `abc`.  `Atoi` fails, `A` is deleted from the registry and the connection is
closed, and the body goes on: `generateBlock` is called with BPM 0 on the last block,
the block passes `isBlockValid`, is sent on `candidateBlocks`, and the intake puts it
into `tempBlocks`. -/
theorem malformed_line_still_proposes :
    (Atoi "abc") = (0, true) ∧
    (handleBPMLine stOneValidator "A" "abc" "t1").connClosed = true ∧
    (handleBPMLine stOneValidator "A" "abc" "t1").validators = [] ∧
    generateBlock (genesisBlock "t0") 0 "A" "t1" =
      Except.ok (generatedBlock (genesisBlock "t0") 0 "A" "t1") ∧
    (handleBPMLine stOneValidator "A" "abc" "t1").generated =
      some (generatedBlock (genesisBlock "t0") 0 "A" "t1") ∧
    (handleBPMLine stOneValidator "A" "abc" "t1").sent =
      some (generatedBlock (genesisBlock "t0") 0 "A" "t1") ∧
    (afterBPMLine stOneValidator "A" "abc" "t1").tempBlocks =
      [generatedBlock (genesisBlock "t0") 0 "A" "t1"] ∧
    (generatedBlock (genesisBlock "t0") 0 "A" "t1").BPM = 0 ∧
    (generatedBlock (genesisBlock "t0") 0 "A" "t1").Validator = "A" := by
  have hA : Atoi "abc" = (0, true) := by decide
  have hl : stOneValidator.Blockchain.getLast? = some (genesisBlock "t0") := rfl
  have hs := handleBPMLine_sent stOneValidator "A" "abc" "t1" (genesisBlock "t0") hl
  rw [hA] at hs
  refine ⟨hA, ?_, ?_, generateBlock_eq _ _ _ _, ?_, ?_, ?_, rfl, rfl⟩
  · rw [hs]
  · rw [hs]; decide
  · rw [hs]
  · rw [hs]
  · simp only [afterBPMLine, hs, intake]; rfl

/-! ## The record of a block and the BPM -/

theorem intToString_of_scalar (v : Int) (h0 : 0 ≤ v) (hv : v.toNat.isValidChar) :
    intToString v = String.singleton (Char.ofNat v.toNat) := by
  unfold intToString
  rw [if_pos ⟨h0, hv⟩]

theorem charOfNat_toNat (n : Nat) (h : n.isValidChar) : (Char.ofNat n).toNat = n := by
  unfold Char.ofNat
  rw [dif_pos h]
  simp only [Char.ofNatAux, Char.toNat, UInt32.toNat]
  simp

theorem intToString_injOn_scalar (a b : Int) (ha0 : 0 ≤ a) (ha : a.toNat.isValidChar)
    (hb0 : 0 ≤ b) (hb : b.toNat.isValidChar) (h : intToString a = intToString b) : a = b := by
  rw [intToString_of_scalar a ha0 ha, intToString_of_scalar b hb0 hb] at h
  have hc : Char.ofNat a.toNat = Char.ofNat b.toNat := by
    have := congrArg String.data h
    simpa [String.singleton] using this
  have hn : a.toNat = b.toNat := by
    rw [← charOfNat_toNat a.toNat ha, ← charOfNat_toNat b.toNat hb, hc]
  omega

/-- Two blocks that agree on Index, Timestamp and PrevHash and whose BPM values are
distinct Unicode scalar values have different records. -/
theorem blockRecord_ne_of_scalar_BPM (b c : Block) (hi : b.Index = c.Index)
    (ht : b.Timestamp = c.Timestamp) (hp : b.PrevHash = c.PrevHash)
    (hb0 : 0 ≤ b.BPM) (hb : b.BPM.toNat.isValidChar)
    (hc0 : 0 ≤ c.BPM) (hc : c.BPM.toNat.isValidChar) (hne : b.BPM ≠ c.BPM) :
    blockRecord b ≠ blockRecord c := by
  intro h
  apply hne
  apply intToString_injOn_scalar _ _ hb0 hb hc0 hc
  unfold blockRecord at h
  rw [hi, ht, hp] at h
  have hd := congrArg String.data h
  simp only [String.data_append] at hd
  have h1 := List.append_cancel_right hd
  have h2 := List.append_cancel_left h1
  exact String.ext h2

/-- C10 (the code at the failing input): the block generated on the genesis block with
BPM -1 and the same block with its BPM changed to -2 agree on Index, Timestamp and
PrevHash and differ on BPM, yet `string(-1)` and `string(-2)` are both U+FFFD, the two
records are the same string, the two hashes are equal, and `isBlockValid` accepts the
changed block. -/
theorem bpm_change_not_detected :
    (generatedBlock (genesisBlock "t0") (-1) "A" "t1").BPM = -1 ∧
    tamperedBlock.BPM = -2 ∧
    tamperedBlock.Index = (generatedBlock (genesisBlock "t0") (-1) "A" "t1").Index ∧
    tamperedBlock.Timestamp = (generatedBlock (genesisBlock "t0") (-1) "A" "t1").Timestamp ∧
    tamperedBlock.PrevHash = (generatedBlock (genesisBlock "t0") (-1) "A" "t1").PrevHash ∧
    intToString (-1) = intToString (-2) ∧
    blockRecord tamperedBlock = blockRecord (generatedBlock (genesisBlock "t0") (-1) "A" "t1") ∧
    calculateBlockHash tamperedBlock =
      calculateBlockHash (generatedBlock (genesisBlock "t0") (-1) "A" "t1") ∧
    isBlockValid (generatedBlock (genesisBlock "t0") (-1) "A" "t1") (genesisBlock "t0") = true ∧
    isBlockValid tamperedBlock (genesisBlock "t0") = true := by
  have hi : intToString (-1) = intToString (-2) := by decide
  have hr : blockRecord tamperedBlock =
      blockRecord (generatedBlock (genesisBlock "t0") (-1) "A" "t1") := by
    simp [blockRecord, tamperedBlock, generatedBlock, hi]
  have hv := generatedBlock_valid (genesisBlock "t0") (-1) "A" "t1"
  refine ⟨rfl, rfl, rfl, rfl, rfl, hi, hr, calculateBlockHash_congr _ _ hr, hv, ?_⟩
  rw [isBlockValid_iff] at hv ⊢
  refine ⟨hv.1, hv.2.1, ?_⟩
  rw [calculateBlockHash_congr _ _ hr]
  exact hv.2.2

/-! ## The lottery pool -/

theorem lotteryStep_of_mem (validators : Registry) (acc : List String) (block : Block)
    (hmem : block.Validator ∈ acc) : lotteryStep validators acc block = acc := by
  have hany : acc.any (fun node => decide (block.Validator = node)) = true := by
    simp only [List.any_eq_true, decide_eq_true_eq]
    exact ⟨_, hmem, rfl⟩
  simp only [lotteryStep, hany, if_true]

theorem lotteryStep_of_not_mem (validators : Registry) (acc : List String) (block : Block)
    (hmem : block.Validator ∉ acc) :
    lotteryStep validators acc block =
      match validators.get block.Validator with
      | some k => acc ++ List.replicate k.toNat block.Validator
      | none => acc := by
  have hany : ¬ acc.any (fun node => decide (block.Validator = node)) = true := by
    simp only [List.any_eq_true, decide_eq_true_eq, not_exists, not_and]
    intro x hx hxe
    exact hmem (hxe ▸ hx)
  simp only [lotteryStep, hany]
  rfl

theorem tickets_append_self (validators : Registry) (seen : List String) (w : String) :
    tickets validators (seen ++ [w]) w =
      match validators.get w with
      | some k => k.toNat
      | none => 0 := by
  simp [tickets]

theorem tickets_append_other (validators : Registry) (seen : List String) (w v : String)
    (h : v ≠ w) : tickets validators (seen ++ [w]) v = tickets validators seen v := by
  simp [tickets, h]

theorem lotteryStep_count (validators : Registry) (seen : List String) (acc : List String)
    (block : Block) (hacc : ∀ v, acc.count v = tickets validators seen v) (v : String) :
    (lotteryStep validators acc block).count v =
      tickets validators (seen ++ [block.Validator]) v := by
  by_cases hmem : block.Validator ∈ acc
  · rw [lotteryStep_of_mem validators acc block hmem, hacc v]
    by_cases hv : v = block.Validator
    · rw [hv, tickets_append_self]
      have hpos : 0 < acc.count block.Validator := List.count_pos_iff.mpr hmem
      rw [hacc] at hpos
      unfold tickets at hpos ⊢
      by_cases hseen : block.Validator ∈ seen
      · rw [if_pos hseen]
      · rw [if_neg hseen] at hpos; omega
    · rw [tickets_append_other _ _ _ _ hv]
  · rw [lotteryStep_of_not_mem validators acc block hmem]
    have hzero : acc.count block.Validator = 0 := List.count_eq_zero_of_not_mem hmem
    by_cases hv : v = block.Validator
    · rw [hv, tickets_append_self]
      cases hg : validators.get block.Validator with
      | none => exact hzero
      | some k =>
        simp only [List.count_append, hzero, List.count_replicate_self, zero_add]
    · rw [tickets_append_other _ _ _ _ hv]
      have hne : ¬ (block.Validator == v) = true := by
        simp only [beq_iff_eq]
        exact fun h => hv h.symm
      cases hg : validators.get block.Validator with
      | none => exact hacc v
      | some k =>
        simp [List.count_append, hacc v, List.count_replicate, hne]

theorem foldl_lotteryStep_count (validators : Registry) (temp : List Block) :
    ∀ (seen : List String) (acc : List String),
      (∀ v, acc.count v = tickets validators seen v) →
      ∀ v, (temp.foldl (lotteryStep validators) acc).count v =
        tickets validators (seen ++ temp.map Block.Validator) v := by
  induction temp with
  | nil => intro seen acc hacc v; simpa using hacc v
  | cons block temp ih =>
    intro seen acc hacc v
    have h := ih (seen ++ [block.Validator]) (lotteryStep validators acc block)
      (lotteryStep_count validators seen acc block hacc) v
    simpa using h

theorem buildLotteryPool_count (validators : Registry) (temp : List Block) (v : String) :
    (buildLotteryPool validators temp).count v =
      tickets validators (temp.map Block.Validator) v := by
  have h := foldl_lotteryStep_count validators temp [] [] (fun v => by simp [tickets]) v
  simpa [buildLotteryPool] using h

theorem mem_buildLotteryPool (validators : Registry) (temp : List Block) (v : String) :
    v ∈ buildLotteryPool validators temp ↔
      (∃ b ∈ temp, b.Validator = v) ∧ ∃ k, validators.get v = some k ∧ 0 < k := by
  rw [← List.count_pos_iff, buildLotteryPool_count]
  unfold tickets
  by_cases hv : v ∈ temp.map Block.Validator
  · have hex : ∃ b ∈ temp, b.Validator = v := by simpa using hv
    rw [if_pos hv]
    cases hg : validators.get v with
    | none => simp
    | some k =>
      simp only [Option.some.injEq, exists_eq_left', hex, true_and]
      omega
  · have hex : ¬ ∃ b ∈ temp, b.Validator = v := by simpa using hv
    simp [hv, hex]

/-- C3: the lottery pool that `pickWinner` builds from the candidates `temp` and the
registry holds, for every validator identity `v`, exactly `k` copies of `v` when `v`
is the validator of at least one candidate and the registry maps `v` to a stake
`k > 0`, and no copy otherwise; a validator with several candidates gets the tickets
of one; and with the registry A:3, B:1 and one candidate each, A has 3 of the 4
tickets. -/
theorem lotteryPool_tickets (validators : Registry) (temp : List Block) (v : String) :
    (∀ k : Int, (∃ b ∈ temp, b.Validator = v) → validators.get v = some k → 0 < k →
      ((buildLotteryPool validators temp).count v : Int) = k) ∧
    (¬ ((∃ b ∈ temp, b.Validator = v) ∧ ∃ k, validators.get v = some k ∧ 0 < k) →
      (buildLotteryPool validators temp).count v = 0) ∧
    (∀ extra : Block, extra.Validator = v → (∃ b ∈ temp, b.Validator = v) →
      (buildLotteryPool validators (temp ++ [extra])).count v =
        (buildLotteryPool validators temp).count v) ∧
    (buildLotteryPool [("A", 3), ("B", 1)] [candA, candB]).count "A" = 3 ∧
    (buildLotteryPool [("A", 3), ("B", 1)] [candA, candB]).length = 4 := by
  refine ⟨?_, ?_, ?_, by decide, by decide⟩
  · intro k hex hg hk
    have hv : v ∈ temp.map Block.Validator := by simpa using hex
    rw [buildLotteryPool_count]
    simp only [tickets, hv, if_true, hg]
    omega
  · intro hnot
    rw [List.count_eq_zero]
    intro hmem
    exact hnot ((mem_buildLotteryPool validators temp v).mp hmem)
  · intro extra he hex
    have hv : v ∈ temp.map Block.Validator := by simpa using hex
    rw [buildLotteryPool_count, buildLotteryPool_count]
    simp [tickets, hv, he]

/-! ## Round resolution -/

theorem buildLotteryPool_nil (validators : Registry) : buildLotteryPool validators [] = [] := rfl

theorem pickWinner_of_no_candidate (st : State) (r : Nat) (h : st.tempBlocks = []) :
    pickWinner st r = Outcome.returned { st with tempBlocks := [] } := by
  simp [pickWinner, h]

theorem pickWinner_of_empty_pool (st : State) (r : Nat) (h : st.tempBlocks ≠ [])
    (hp : buildLotteryPool st.validators st.tempBlocks = []) :
    pickWinner st r = Outcome.panicked st := by
  have hlen : 0 < st.tempBlocks.length := List.length_pos.mpr h
  simp [pickWinner, hlen, hp, Intn]

theorem find_candidate_of_ticket (validators : Registry) (temp : List Block) (w : String)
    (hw : w ∈ buildLotteryPool validators temp) :
    ∃ block, temp.find? (fun block => decide (block.Validator = w)) = some block := by
  obtain ⟨⟨b, hb, hbw⟩, _⟩ := (mem_buildLotteryPool validators temp w).mp hw
  cases hf : temp.find? (fun block => decide (block.Validator = w)) with
  | some block => exact ⟨block, rfl⟩
  | none =>
    rw [List.find?_eq_none] at hf
    have := hf b hb
    simp [hbw] at this

theorem pickWinner_of_ticket (st : State) (r : Nat) (w : String) (block : Block)
    (hw : (buildLotteryPool st.validators st.tempBlocks)[r %
      (buildLotteryPool st.validators st.tempBlocks).length]? = some w)
    (hf : st.tempBlocks.find? (fun block => decide (block.Validator = w)) = some block) :
    pickWinner st r = Outcome.returned
      { Blockchain := st.Blockchain ++ [block], tempBlocks := [], validators := st.validators,
        announcements := st.announcements ++
          List.replicate st.validators.size ("\nwinning validator: " ++ w ++ "\n") } := by
  have hne : st.tempBlocks ≠ [] := by
    intro h
    rw [h] at hf
    simp at hf
  have hlen : 0 < st.tempBlocks.length := List.length_pos.mpr hne
  have hpl : (buildLotteryPool st.validators st.tempBlocks).length ≠ 0 := by
    intro h0
    rw [List.length_eq_zero] at h0
    rw [h0] at hw
    simp at hw
  simp [pickWinner, hlen, Intn, hpl, hw, appendWinner, hf]

/-- The three ways a round resolution ends. -/
theorem pickWinner_cases (st : State) (r : Nat) :
    (st.tempBlocks = [] ∧ pickWinner st r = Outcome.returned { st with tempBlocks := [] }) ∨
    (st.tempBlocks ≠ [] ∧ buildLotteryPool st.validators st.tempBlocks = [] ∧
      pickWinner st r = Outcome.panicked st) ∨
    (∃ w block,
      (buildLotteryPool st.validators st.tempBlocks)[r %
        (buildLotteryPool st.validators st.tempBlocks).length]? = some w ∧
      st.tempBlocks.find? (fun block => decide (block.Validator = w)) = some block ∧
      pickWinner st r = Outcome.returned
        { Blockchain := st.Blockchain ++ [block], tempBlocks := [], validators := st.validators,
          announcements := st.announcements ++
            List.replicate st.validators.size ("\nwinning validator: " ++ w ++ "\n") }) := by
  by_cases h : st.tempBlocks = []
  · exact Or.inl ⟨h, pickWinner_of_no_candidate st r h⟩
  · by_cases hp : buildLotteryPool st.validators st.tempBlocks = []
    · exact Or.inr (Or.inl ⟨h, hp, pickWinner_of_empty_pool st r h hp⟩)
    · have hpos : 0 < (buildLotteryPool st.validators st.tempBlocks).length :=
        List.length_pos.mpr hp
      have hlt := Nat.mod_lt r hpos
      obtain ⟨w, hw⟩ : ∃ w, (buildLotteryPool st.validators st.tempBlocks)[r %
          (buildLotteryPool st.validators st.tempBlocks).length]? = some w :=
        ⟨_, List.getElem?_eq_getElem hlt⟩
      have hmem : w ∈ buildLotteryPool st.validators st.tempBlocks :=
        List.getElem?_mem hw
      obtain ⟨block, hf⟩ := find_candidate_of_ticket st.validators st.tempBlocks w hmem
      exact Or.inr (Or.inr ⟨w, block, hw, hf, pickWinner_of_ticket st r w block hw hf⟩)

/-- C4: when the draw `r` is an index of the lottery pool (so the pool is not empty),
round resolution returns, the chain grows by exactly one block, the earlier blocks are
as before, and the new block is the first candidate of the pool, in pool order, whose
validator is the `r`-th ticket. -/
theorem pickWinner_appends_first_candidate (st : State) (r : Nat)
    (hr : r < (buildLotteryPool st.validators st.tempBlocks).length) :
    ∃ (winner : String) (pre : List Block) (block : Block) (post : List Block) (st1 : State),
      (buildLotteryPool st.validators st.tempBlocks)[r]? = some winner ∧
      st.tempBlocks = pre ++ block :: post ∧
      block.Validator = winner ∧
      (∀ c ∈ pre, c.Validator ≠ winner) ∧
      pickWinner st r = Outcome.returned st1 ∧
      st1.Blockchain = st.Blockchain ++ [block] ∧
      st1.Blockchain.length = st.Blockchain.length + 1 ∧
      st1.tempBlocks = [] ∧
      st1.validators = st.validators := by
  have hmod : r % (buildLotteryPool st.validators st.tempBlocks).length = r :=
    Nat.mod_eq_of_lt hr
  have hne : buildLotteryPool st.validators st.tempBlocks ≠ [] := by
    intro h0
    rw [h0] at hr
    simp at hr
  rcases pickWinner_cases st r with ⟨h, _⟩ | ⟨_, hp, _⟩ | ⟨w, block, hw, hf, hres⟩
  · rw [h] at hne
    exact absurd (buildLotteryPool_nil st.validators) hne
  · exact absurd hp hne
  · rw [hmod] at hw
    obtain ⟨hpb, pre, post, hsplit, hpre⟩ := List.find?_eq_some.mp hf
    refine ⟨w, pre, block, post, _, hw, hsplit, by simpa using hpb, ?_, hres, rfl, by simp,
      rfl, rfl⟩
    intro c hc
    simpa using hpre c hc

theorem pickWinner_appends_first_candidate_witness :
    (2 : Nat) < (buildLotteryPool stRound.validators stRound.tempBlocks).length ∧
    ∃ (winner : String) (pre : List Block) (block : Block) (post : List Block) (st1 : State),
      (buildLotteryPool stRound.validators stRound.tempBlocks)[2]? = some winner ∧
      stRound.tempBlocks = pre ++ block :: post ∧
      block.Validator = winner ∧
      (∀ c ∈ pre, c.Validator ≠ winner) ∧
      pickWinner stRound 2 = Outcome.returned st1 ∧
      st1.Blockchain = stRound.Blockchain ++ [block] ∧
      st1.Blockchain.length = stRound.Blockchain.length + 1 ∧
      st1.tempBlocks = [] ∧
      st1.validators = stRound.validators :=
  ⟨by decide, pickWinner_appends_first_candidate stRound 2 (by decide)⟩

theorem mem_of_find_candidate (temp : List Block) (w : String) (block : Block)
    (hf : temp.find? (fun block => decide (block.Validator = w)) = some block) :
    block ∈ temp ∧ block.Validator = w := by
  refine ⟨List.mem_of_find?_eq_some hf, ?_⟩
  have := List.find?_some hf
  simpa using this

/-- C5: when the registry does not contain validator `V`, round resolution appends no
block of `V`, whatever the candidate pool and the draw: at the end of the round
(returned or stopped by a panic) the chain is as before, or it is the chain extended by
one candidate of the pool whose validator differs from `V` and holds a positive stake
in the registry. -/
theorem pickWinner_skips_deregistered (st : State) (r : Nat) (V : String)
    (hV : st.validators.get V = none) :
    (pickWinner st r).state.Blockchain = st.Blockchain ∨
    ∃ (block : Block) (k : Int),
      (pickWinner st r).state.Blockchain = st.Blockchain ++ [block] ∧
      block ∈ st.tempBlocks ∧
      block.Validator ≠ V ∧
      st.validators.get block.Validator = some k ∧ 0 < k := by
  rcases pickWinner_cases st r with ⟨_, hres⟩ | ⟨_, _, hres⟩ | ⟨w, block, hw, hf, hres⟩
  · left; rw [hres]; rfl
  · left; rw [hres]; rfl
  · right
    obtain ⟨hmem, hbw⟩ := mem_of_find_candidate st.tempBlocks w block hf
    obtain ⟨_, k, hk, hpos⟩ :=
      (mem_buildLotteryPool st.validators st.tempBlocks w).mp (List.getElem?_mem hw)
    refine ⟨block, k, by rw [hres]; rfl, hmem, ?_, by rw [hbw]; exact hk, hpos⟩
    intro hc
    rw [hbw] at hc
    rw [hc, hV] at hk
    exact Option.noConfusion hk

theorem pickWinner_skips_deregistered_witness :
    stDeregistered.validators.get "A" = none ∧
    ((pickWinner stDeregistered 0).state.Blockchain = stDeregistered.Blockchain ∨
    ∃ (block : Block) (k : Int),
      (pickWinner stDeregistered 0).state.Blockchain = stDeregistered.Blockchain ++ [block] ∧
      block ∈ stDeregistered.tempBlocks ∧
      block.Validator ≠ "A" ∧
      stDeregistered.validators.get block.Validator = some k ∧ 0 < k) :=
  ⟨by decide, pickWinner_skips_deregistered stDeregistered 0 "A" (by decide)⟩

/-- C1 (the code at the failing input): the only candidate of the round comes from a
validator registered with 0 tokens, or from a validator that is no longer in the
registry.  The lottery pool is empty, `Intn(0)` panics for every value of the random
source, and `pickWinner` does not reach the statement that clears `tempBlocks`: the
candidate pool is not empty afterwards. -/
theorem pickWinner_panics_on_empty_pool (r : Nat) :
    buildLotteryPool stZeroStake.validators stZeroStake.tempBlocks = [] ∧
    pickWinner stZeroStake r = Outcome.panicked stZeroStake ∧
    (pickWinner stZeroStake r).state.tempBlocks ≠ [] ∧
    buildLotteryPool (afterBPMLine stOneValidator "A" "abc" "t1").validators
      (afterBPMLine stOneValidator "A" "abc" "t1").tempBlocks = [] ∧
    pickWinner (afterBPMLine stOneValidator "A" "abc" "t1") r =
      Outcome.panicked (afterBPMLine stOneValidator "A" "abc" "t1") := by
  have hp : buildLotteryPool stZeroStake.validators stZeroStake.tempBlocks = [] := by decide
  have hne : stZeroStake.tempBlocks ≠ [] := by decide
  have hres := pickWinner_of_empty_pool stZeroStake r hne hp
  have hl : stOneValidator.Blockchain.getLast? = some (genesisBlock "t0") := rfl
  have hs := handleBPMLine_sent stOneValidator "A" "abc" "t1" (genesisBlock "t0") hl
  have hA : Atoi "abc" = (0, true) := by decide
  rw [hA] at hs
  have hst : afterBPMLine stOneValidator "A" "abc" "t1" =
      { Blockchain := [genesisBlock "t0"],
        tempBlocks := [generatedBlock (genesisBlock "t0") 0 "A" "t1"],
        validators := [], announcements := [] } := by
    simp only [afterBPMLine, hs, intake]; rfl
  have hp2 : buildLotteryPool (afterBPMLine stOneValidator "A" "abc" "t1").validators
      (afterBPMLine stOneValidator "A" "abc" "t1").tempBlocks = [] := by
    rw [hst]; decide
  have hne2 : (afterBPMLine stOneValidator "A" "abc" "t1").tempBlocks ≠ [] := by
    rw [hst]; simp
  refine ⟨hp, hres, ?_, hp2, pickWinner_of_empty_pool _ r hne2 hp2⟩
  rw [hres]; exact hne

/-! ## The chain invariant -/

theorem wrapInt_succ (x : Int) : wrapInt (wrapInt x + 1) = wrapInt (x + 1) := by
  unfold wrapInt
  omega

theorem Linked.append_singleton (l : List Block) (b : Block) (hl : Linked l)
    (hb : ∀ tail, l.getLast? = some tail → isBlockValid b tail = true) :
    Linked (l ++ [b]) := by
  induction l with
  | nil => trivial
  | cons a l ih =>
    cases l with
    | nil =>
      exact ⟨hb a rfl, trivial⟩
    | cons c rest =>
      obtain ⟨hac, hrest⟩ := hl
      refine ⟨hac, ih hrest ?_⟩
      intro tail ht
      apply hb tail
      simpa [List.getLast?_cons_cons] using ht

theorem Linked.getElem (l : List Block) (hl : Linked l) :
    ∀ (i : Nat) (p b : Block), l[i]? = some p → l[i + 1]? = some b →
      isBlockValid b p = true := by
  induction l with
  | nil => intro i p b hp; simp at hp
  | cons a l ih =>
    intro i p b hp hb
    cases l with
    | nil => simp at hb
    | cons c rest =>
      obtain ⟨hac, hrest⟩ := hl
      cases i with
      | zero =>
        simp at hp hb
        rw [← hp, ← hb]; exact hac
      | succ i =>
        exact ih hrest i p b (by simpa using hp) (by simpa using hb)

theorem Linked.index (l : List Block) (hl : Linked l) (g : Block) (hg : l[0]? = some g)
    (hg0 : g.Index = 0) :
    ∀ (i : Nat) (b : Block), l[i]? = some b → b.Index = wrapInt i := by
  intro i
  induction i with
  | zero =>
    intro b hb
    rw [hg] at hb
    rw [← Option.some.inj hb, hg0]
    rfl
  | succ i ih =>
    intro b hb
    have hlt : i + 1 < l.length := (List.getElem?_eq_some_iff.mp hb).1
    have hp : l[i]? = some l[i] := List.getElem?_eq_getElem (by omega)
    have hv := (isBlockValid_iff _ _).mp (hl.getElem l i _ b hp hb)
    rw [hv.1, ih _ hp, wrapInt_succ]
    rfl

theorem inv_init (t0 : String) : Inv t0 (initState t0) := by
  refine ⟨⟨[], rfl⟩, trivial, ?_⟩
  intro tail _ b hb
  simp [initState] at hb

theorem inv_step (t0 : String) (st st1 : State) (hinv : Inv t0 st) (hstep : Step st st1) :
    Inv t0 st1 := by
  obtain ⟨hgen, hlinked, hpool⟩ := hinv
  cases hstep with
  | register address balance => exact ⟨hgen, hlinked, hpool⟩
  | deregister address => exact ⟨hgen, hlinked, hpool⟩
  | propose oldLastIndex newBlock bpm address now hlast _ hvalid =>
    refine ⟨hgen, hlinked, ?_⟩
    intro tail ht b hb
    simp only [intake, List.mem_append, List.mem_singleton] at hb
    rcases hb with hb | hb
    · exact hpool tail ht b hb
    · have hte : tail = oldLastIndex := Option.some.inj (ht.symm.trans hlast)
      rw [hb, hte]; exact hvalid
  | balanceLine line now =>
    unfold handleBalanceLine
    split
    split_ifs
    · exact ⟨hgen, hlinked, hpool⟩
    · exact ⟨hgen, hlinked, hpool⟩
  | bpmLine address line now hnp =>
    cases hl : st.Blockchain.getLast? with
    | none =>
      obtain ⟨rest, hrest⟩ := hgen
      rw [hrest] at hl
      simp at hl
    | some oldBlock =>
      have hs := handleBPMLine_sent st address line now oldBlock hl
      refine ⟨hgen, hlinked, ?_⟩
      intro tail ht b hb
      have hte : tail = oldBlock := Option.some.inj (ht.symm.trans hl)
      simp only [afterBPMLine, hs, intake, List.mem_append, List.mem_singleton] at hb
      rcases hb with hb | hb
      · exact hpool tail ht b hb
      · rw [hb, hte]; exact generatedBlock_valid _ _ _ _
  | round r =>
    rcases pickWinner_cases st r with ⟨_, h⟩ | ⟨_, _, h⟩ | ⟨w, block, _, hf, h⟩
    · rw [h]
      refine ⟨hgen, hlinked, ?_⟩
      intro tail _ b hb
      simp [Outcome.state] at hb
    · rw [h]
      exact ⟨hgen, hlinked, hpool⟩
    · rw [h]
      obtain ⟨hmem, _⟩ := mem_of_find_candidate st.tempBlocks w block hf
      obtain ⟨rest, hrest⟩ := hgen
      refine ⟨⟨rest ++ [block], by simp [Outcome.state, hrest]⟩, ?_, ?_⟩
      · exact hlinked.append_singleton _ block (fun tail ht => hpool tail ht block hmem)
      · intro tail _ b hb
        simp [Outcome.state] at hb

theorem inv_of_reachable (t0 : String) (st : State) (h : Reachable t0 st) : Inv t0 st := by
  induction h with
  | init => exact inv_init t0
  | step st st1 _ hstep ih => exact inv_step t0 st st1 ih hstep

/-- C6: in every state reachable from the start (chain = genesis block, empty pool,
empty registry) by registrations, deregistrations, proposals, session lines and round
resolutions with any draw, the chain starts with the genesis block, of Index 0 and
empty PrevHash, and every later block has the PrevHash equal to the Hash of the block
before it, the Hash equal to `calculateBlockHash` of itself and the Index of the block
before it plus one in Go's 64-bit arithmetic; as long as the length of the chain fits
a Go `int`, the Index of the block at position `i` is `i` and the Index of every later
block is the Index before it plus one. -/
theorem reachable_chain_linked (t0 : String) (st : State) (h : Reachable t0 st) :
    (∃ rest, st.Blockchain = genesisBlock t0 :: rest) ∧
    (genesisBlock t0).Index = 0 ∧ (genesisBlock t0).PrevHash = "" ∧
    (∀ (i : Nat) (p b : Block), st.Blockchain[i]? = some p → st.Blockchain[i + 1]? = some b →
      b.Index = wrapInt (p.Index + 1) ∧ b.PrevHash = p.Hash ∧
        b.Hash = calculateBlockHash b) ∧
    ((st.Blockchain.length : Int) ≤ maxInt →
      (∀ (i : Nat) (b : Block), st.Blockchain[i]? = some b → b.Index = i) ∧
      (∀ (i : Nat) (p b : Block), st.Blockchain[i]? = some p →
        st.Blockchain[i + 1]? = some b → b.Index = p.Index + 1)) := by
  obtain ⟨hgen, hlinked, _⟩ := inv_of_reachable t0 st h
  have hpair : ∀ (i : Nat) (p b : Block), st.Blockchain[i]? = some p →
      st.Blockchain[i + 1]? = some b →
      b.Index = wrapInt (p.Index + 1) ∧ b.PrevHash = p.Hash ∧
        b.Hash = calculateBlockHash b := by
    intro i p b hp hb
    exact (isBlockValid_iff _ _).mp (hlinked.getElem _ i p b hp hb)
  refine ⟨hgen, rfl, rfl, hpair, ?_⟩
  intro hlen
  obtain ⟨rest, hrest⟩ := hgen
  have hidx : ∀ (i : Nat) (b : Block), st.Blockchain[i]? = some b → b.Index = i := by
    intro i b hb
    have hlt : i < st.Blockchain.length := (List.getElem?_eq_some_iff.mp hb).1
    rw [hlinked.index _ (genesisBlock t0) (by rw [hrest]; simp) rfl i b hb]
    apply wrapInt_of_range
    · unfold minInt; omega
    · omega
  refine ⟨hidx, ?_⟩
  intro i p b hp hb
  rw [hidx i p hp, hidx (i + 1) b hb]
  push_cast
  rfl

theorem stProposed_eq :
    stProposed =
      { Blockchain := [genesisBlock "t0"],
        tempBlocks := [generatedBlock (genesisBlock "t0") 72 "A" "t1"],
        validators := [("A", 10)], announcements := [] } := by
  have hs := handleBPMLine_sent
    { initState "t0" with validators := (initState "t0").validators.set "A" 10 }
    "A" "72" "t1" (genesisBlock "t0") rfl
  have hA : Atoi "72" = (72, false) := by decide
  rw [hA] at hs
  simp only [stProposed, afterBPMLine, hs, intake]
  rfl

theorem reachable_stProposed : Reachable "t0" stProposed := by
  refine Reachable.step _ _ (Reachable.step _ _ Reachable.init
    (Step.register (initState "t0") "A" 10)) (Step.bpmLine _ "A" "72" "t1" ?_)
  rw [handleBPMLine_sent
    { initState "t0" with validators := (initState "t0").validators.set "A" 10 }
    "A" "72" "t1" (genesisBlock "t0") rfl]

theorem pickWinner_stProposed : (pickWinner stProposed 0).state = stResolved := by
  have hw : (buildLotteryPool stProposed.validators stProposed.tempBlocks)[0 %
      (buildLotteryPool stProposed.validators stProposed.tempBlocks).length]? = some "A" := by
    rw [stProposed_eq]; decide
  have hf : stProposed.tempBlocks.find? (fun block => decide (block.Validator = "A")) =
      some (generatedBlock (genesisBlock "t0") 72 "A" "t1") := by
    rw [stProposed_eq]; rfl
  rw [pickWinner_of_ticket stProposed 0 "A" _ hw hf, stProposed_eq]
  rfl

theorem reachable_chain_linked_witness :
    Reachable "t0" stResolved ∧
    (stResolved.Blockchain.length : Int) ≤ maxInt ∧
    (∃ rest, stResolved.Blockchain = genesisBlock "t0" :: rest) ∧
    (∀ (i : Nat) (p b : Block), stResolved.Blockchain[i]? = some p →
      stResolved.Blockchain[i + 1]? = some b →
      b.Index = wrapInt (p.Index + 1) ∧ b.PrevHash = p.Hash ∧
        b.Hash = calculateBlockHash b) ∧
    (∀ (i : Nat) (b : Block), stResolved.Blockchain[i]? = some b → b.Index = i) :=
  have hr : Reachable "t0" stResolved :=
    Reachable.step _ _ reachable_stProposed
      (pickWinner_stProposed ▸ Step.round stProposed 0)
  have hlen : (stResolved.Blockchain.length : Int) ≤ maxInt := by simp [stResolved, maxInt]
  have h := reachable_chain_linked "t0" stResolved hr
  ⟨hr, hlen, h.1, h.2.2.2.1, (h.2.2.2.2 hlen).1⟩

/-! ## Round resolution and the validity of the appended block -/

/-- In the states of `Reachable`, where a proposal and its intake are one step, the
block that a round resolution appends passes `isBlockValid` against the last block of
the chain. -/
theorem pickWinner_appends_valid_of_reachable (t0 : String) (st : State)
    (h : Reachable t0 st) (r : Nat) :
    (pickWinner st r).state.Blockchain = st.Blockchain ∨
    ∃ (tail block : Block), st.Blockchain.getLast? = some tail ∧
      (pickWinner st r).state.Blockchain = st.Blockchain ++ [block] ∧
      isBlockValid block tail = true := by
  obtain ⟨⟨rest, hrest⟩, _, hpool⟩ := inv_of_reachable t0 st h
  rcases pickWinner_cases st r with ⟨_, hres⟩ | ⟨_, _, hres⟩ | ⟨w, block, _, hf, hres⟩
  · left; rw [hres]; rfl
  · left; rw [hres]; rfl
  · right
    obtain ⟨hmem, _⟩ := mem_of_find_candidate st.tempBlocks w block hf
    have hne : st.Blockchain ≠ [] := by rw [hrest]; simp
    have hlast : st.Blockchain.getLast? = some (st.Blockchain.getLast hne) :=
      List.getLast?_eq_getLast _ hne
    exact ⟨_, block, hlast, by rw [hres]; rfl, hpool _ hlast block hmem⟩

theorem raceAfterA_eq :
    raceAfterA =
      { Blockchain := [genesisBlock "t0"],
        tempBlocks := [generatedBlock (genesisBlock "t0") 60 "A" "t1"],
        validators := [("A", 1), ("B", 1)], announcements := [] } := by
  have hs := handleBPMLine_sent raceStart "A" "60" "t1" (genesisBlock "t0") rfl
  have hA : Atoi "60" = (60, false) := by decide
  rw [hA] at hs
  simp only [raceAfterA, afterBPMLine, hs, intake]
  rfl

theorem raceLineB_eq :
    raceLineB =
      { validators := [("A", 1), ("B", 1)], connClosed := false,
        generated := some (generatedBlock (genesisBlock "t0") 70 "B" "t2"),
        sent := some (generatedBlock (genesisBlock "t0") 70 "B" "t2"),
        panicked := false } := by
  have hl : raceAfterA.Blockchain.getLast? = some (genesisBlock "t0") := by
    rw [raceAfterA_eq]; rfl
  have hs := handleBPMLine_sent raceAfterA "B" "70" "t2" (genesisBlock "t0") hl
  have hA : Atoi "70" = (70, false) := by decide
  rw [hA] at hs
  rw [raceLineB, hs, raceAfterA_eq]
  rfl

theorem raceAfterRound_eq :
    raceAfterRound =
      { Blockchain := [genesisBlock "t0", generatedBlock (genesisBlock "t0") 60 "A" "t1"],
        tempBlocks := [], validators := [("A", 1), ("B", 1)],
        announcements := ["\nwinning validator: A\n", "\nwinning validator: A\n"] } := by
  have hst : ({ raceAfterA with validators := raceLineB.validators } : State) =
      { Blockchain := [genesisBlock "t0"],
        tempBlocks := [generatedBlock (genesisBlock "t0") 60 "A" "t1"],
        validators := [("A", 1), ("B", 1)], announcements := [] } := by
    rw [raceLineB_eq, raceAfterA_eq]
  rw [raceAfterRound, hst]
  rw [pickWinner_of_ticket
    { Blockchain := [genesisBlock "t0"],
      tempBlocks := [generatedBlock (genesisBlock "t0") 60 "A" "t1"],
      validators := [("A", 1), ("B", 1)], announcements := [] }
    0 "A" (generatedBlock (genesisBlock "t0") 60 "A" "t1") (by decide) rfl]
  rfl

theorem raceAfterIntake_eq :
    raceAfterIntake =
      { Blockchain := [genesisBlock "t0", generatedBlock (genesisBlock "t0") 60 "A" "t1"],
        tempBlocks := [generatedBlock (genesisBlock "t0") 70 "B" "t2"],
        validators := [("A", 1), ("B", 1)],
        announcements := ["\nwinning validator: A\n", "\nwinning validator: A\n"] } := by
  simp only [raceAfterIntake, raceLineB_eq, raceAfterRound_eq, intake]
  rfl

/-- C2 (the code at the failing input): `A` and `B` hold one token each and the chain
is the genesis block.  `A` proposes; `B` reads the last block (the genesis block),
builds its candidate on it, the candidate passes `isBlockValid` and waits on
`candidateBlocks`; a round appends the candidate of `A` and clears the pool; the
intake then receives the candidate of `B`.  In that state the pool holds one
candidate, it does not pass `isBlockValid` against the last block of the chain, and
round resolution appends it all the same: the chain has two blocks of Index 1, and
the PrevHash of the last is not the Hash of the block before it. -/
theorem pickWinner_appends_stale_candidate :
    raceLineB.sent = some (generatedBlock (genesisBlock "t0") 70 "B" "t2") ∧
    isBlockValid (generatedBlock (genesisBlock "t0") 70 "B" "t2") (genesisBlock "t0") = true ∧
    raceAfterIntake.Blockchain.getLast? =
      some (generatedBlock (genesisBlock "t0") 60 "A" "t1") ∧
    raceAfterIntake.tempBlocks = [generatedBlock (genesisBlock "t0") 70 "B" "t2"] ∧
    isBlockValid (generatedBlock (genesisBlock "t0") 70 "B" "t2")
      (generatedBlock (genesisBlock "t0") 60 "A" "t1") = false ∧
    (pickWinner raceAfterIntake 0).state.Blockchain =
      [genesisBlock "t0", generatedBlock (genesisBlock "t0") 60 "A" "t1",
        generatedBlock (genesisBlock "t0") 70 "B" "t2"] ∧
    (pickWinner raceAfterIntake 0).state.Blockchain ≠ raceAfterIntake.Blockchain ∧
    (pickWinner raceAfterIntake 0).state.Blockchain.map Block.Index = [0, 1, 1] := by
  have hinv : isBlockValid (generatedBlock (genesisBlock "t0") 70 "B" "t2")
      (generatedBlock (genesisBlock "t0") 60 "A" "t1") = false := by
    cases hv : isBlockValid (generatedBlock (genesisBlock "t0") 70 "B" "t2")
      (generatedBlock (genesisBlock "t0") 60 "A" "t1") with
    | false => rfl
    | true =>
      have h1 := ((isBlockValid_iff _ _).mp hv).1
      exact absurd h1 (by decide)
  have hres : (pickWinner raceAfterIntake 0).state.Blockchain =
      [genesisBlock "t0", generatedBlock (genesisBlock "t0") 60 "A" "t1",
        generatedBlock (genesisBlock "t0") 70 "B" "t2"] := by
    rw [raceAfterIntake_eq]
    rw [pickWinner_of_ticket
      { Blockchain := [genesisBlock "t0", generatedBlock (genesisBlock "t0") 60 "A" "t1"],
        tempBlocks := [generatedBlock (genesisBlock "t0") 70 "B" "t2"],
        validators := [("A", 1), ("B", 1)],
        announcements := ["\nwinning validator: A\n", "\nwinning validator: A\n"] }
      0 "B" (generatedBlock (genesisBlock "t0") 70 "B" "t2") (by decide) rfl]
    rfl
  refine ⟨by rw [raceLineB_eq], generatedBlock_valid _ _ _ _, by rw [raceAfterIntake_eq]; rfl,
    by rw [raceAfterIntake_eq], hinv, hres, ?_, ?_⟩
  · rw [hres, raceAfterIntake_eq]
    intro h
    have := congrArg List.length h
    simp at this
  · rw [hres]
    decide

end PoS
